import Mathlib

/-!
Shallow embedding of `dialplan_validator.c`, a line-oriented syntax
validator for Asterisk dialplan configuration files.  Lines of text are
modelled as `List Char`; the C `validator_state` struct and the local
`in_context` flag of `validate_dialplan` become an explicit state record
threaded through a fold over the input lines.  Diagnostics written to
stderr are modelled as an accumulated list of (line number, diagnostic)
pairs; `errors`/`warnings` counters are incremented exactly where the C
code increments them.
-/

namespace Dialplan

/-- C `isspace` for the ASCII characters that occur in text lines:
space, tab, newline, vertical tab, form feed, carriage return. -/
def cIsSpace (c : Char) : Bool :=
  c = ' ' || c = '\t' || c = '\n' || c = '\x0b' || c = '\x0c' || c = '\r'

/-- The single-quote character (ASCII 39). -/
def squote : Char := Char.ofNat 39

/-- The backslash character. -/
def bslash : Char := '\\'

/-- `trim` (lines 25-33): strip trailing whitespace. -/
def rtrim (s : List Char) : List Char :=
  (s.reverse.dropWhile cIsSpace).reverse

/-- `trim` (lines 25-33): strip leading then trailing whitespace. -/
def trim (s : List Char) : List Char :=
  rtrim (s.dropWhile cIsSpace)

/-- `is_comment_or_blank` (lines 36-39): after skipping leading
whitespace the line starts with `;`, `#`, or is exhausted. -/
def is_comment_or_blank (s : List Char) : Bool :=
  match s.dropWhile cIsSpace with
  | [] => true
  | c :: _ => c = ';' || c = '#'

/-- C `tolower` restricted to ASCII. -/
def cToLower (c : Char) : Char :=
  if 65 ≤ c.toNat ∧ c.toNat ≤ 90 then Char.ofNat (c.toNat + 32) else c

/-- `strncasecmp(s, kw, kw.length) == 0` for a lowercase keyword `kw`:
the first `kw.length` characters of `s` exist and lowercase to `kw`. -/
def strncaseeq (s kw : List Char) : Bool :=
  decide (kw.length ≤ s.length) && ((s.take kw.length).map cToLower == kw)

/-- `strstr(s, "=>")`: the text after the first occurrence of `=>`,
or `none` when there is no such occurrence. -/
def afterArrow : List Char → Option (List Char)
  | '=' :: '>' :: rest => some rest
  | _ :: rest => afterArrow rest
  | [] => none

/-- `strstr(s, "=>") != NULL`. -/
def containsArrow (s : List Char) : Bool :=
  (afterArrow s).isSome

/-! ## `check_balanced` (lines 42-91) -/

/-- The scanner state of `check_balanced`: the three counters, the
current quote character (`none` when outside quotes), and the character
at `*(p-1)` (the previously scanned character). -/
structure BalSt where
  parens : Int
  brackets : Int
  braces : Int
  quote : Option Char
  prev : Char
deriving DecidableEq, Repr

/-- One iteration of the `for` loop of `check_balanced` (lines 47-75).
`none` models the early `return 0` taken the moment a counter goes
negative (lines 69-74); the negative-counter check is skipped while
inside a quote (the `continue` at line 52). -/
def balStep (st : BalSt) (c : Char) : Option BalSt :=
  match st.quote with
  | some qc =>
    if c = qc ∧ st.prev ≠ bslash then some { st with quote := none, prev := c }
    else some { st with prev := c }
  | none =>
    let st1 :=
      if c = '"' ∨ c = squote then { st with quote := some c }
      else if c = '(' then { st with parens := st.parens + 1 }
      else if c = ')' then { st with parens := st.parens - 1 }
      else if c = '[' then { st with brackets := st.brackets + 1 }
      else if c = ']' then { st with brackets := st.brackets - 1 }
      else if c = '{' then { st with braces := st.braces + 1 }
      else if c = '}' then { st with braces := st.braces - 1 }
      else st
    let st2 := { st1 with prev := c }
    if st2.parens < 0 ∨ st2.brackets < 0 ∨ st2.braces < 0 then none
    else some st2

/-- The full scan loop of `check_balanced`; `none` = early exit. -/
def balScan : List Char → BalSt → Option BalSt
  | [], st => some st
  | c :: cs, st =>
    match balStep st c with
    | none => none
    | some st' => balScan cs st'

/-- The four possible outcomes of `check_balanced`; the three failing
outcomes each correspond to one `fprintf`/`state->errors++`/`return 0`
site.  Only the `unbalanced` diagnostic (line 84) prints the counters. -/
inductive BalanceResult where
  | valid
  | tooManyClosing
  | unclosedQuote
  | unbalanced (parens brackets braces : Int)
deriving DecidableEq, Repr

/-- `check_balanced` (lines 42-91).  The initial `prev` character is
irrelevant: `*(p-1)` is only read while inside a quote, and the scan
starts outside quotes. -/
def check_balanced (s : List Char) : BalanceResult :=
  match balScan s ⟨0, 0, 0, none, 'x'⟩ with
  | none => .tooManyClosing
  | some st =>
    if st.quote.isSome then .unclosedQuote
    else if st.parens ≠ 0 ∨ st.brackets ≠ 0 ∨ st.braces ≠ 0 then
      .unbalanced st.parens st.brackets st.braces
    else .valid

/-! ## Diagnostics -/

/-- One stderr diagnostic of the validator; each constructor is one
`fprintf` site in the C source. -/
inductive Diag where
  /-- "Unbalanced delimiters (too many closing)" (line 70). -/
  | tooManyClosing
  /-- "Unclosed quote" (line 78). -/
  | unclosedQuote
  /-- "Unbalanced delimiters (parens=%d, brackets=%d, braces=%d)" (line 84). -/
  | unbalanced (parens brackets braces : Int)
  /-- "Unclosed $\x7b...\x7d variable reference" (line 112). -/
  | unclosedVarRef
  /-- "Unclosed $[...] expression" (line 130). -/
  | unclosedExprRef
  /-- "Malformed context (missing ']')" (line 147). -/
  | malformedContext
  /-- "Empty context name" (line 156). -/
  | emptyContextName
  /-- "Missing '=>' in extension definition" (line 169). -/
  | missingArrowExten
  /-- "Unknown keyword (expected 'exten' or 'same')" (line 184). -/
  | unknownKeyword
  /-- "Extension must have format: exten => pattern,priority,app(args)" (line 215). -/
  | badExtenFormat
  /-- "Invalid priority '%s' (must be number, 'n', or 'hint')" (line 237). -/
  | invalidPriority (s : List Char)
  /-- "Priority must be >= 1" (line 243). -/
  | priorityTooSmall
  /-- "Missing '=>' in include statement" (line 272). -/
  | missingArrowInclude
  /-- "Empty context in include statement" (line 279). -/
  | emptyInclude
  /-- "Missing '=>' in switch statement" (line 346). -/
  | missingArrowSwitch
  /-- "Warning: Unknown directive '%s'" (line 354), the only warning. -/
  | unknownDirective (s : List Char)
deriving DecidableEq, Repr

/-- Severity: every diagnostic increments `errors` except the
unknown-directive one, which increments `warnings` (line 356). -/
def Diag.isWarning : Diag → Bool
  | .unknownDirective _ => true
  | _ => false

/-- The diagnostics (0 or 1) emitted by one `check_balanced` call. -/
def balanceDiags : BalanceResult → List Diag
  | .valid => []
  | .tooManyClosing => [.tooManyClosing]
  | .unclosedQuote => [.unclosedQuote]
  | .unbalanced p b r => [.unbalanced p b r]

/-! ## `check_variable_syntax` (lines 94-141) -/

/-- The inner depth scan of `check_variable_syntax` (lines 105-109 and
123-127): `while (*p && count > 0)`, counting nested `oc`/`cc` pairs.
Returns the number of characters the loop consumed (how far `p`
advanced) and the final count. -/
def scanDepth (oc cc : Char) : List Char → Nat → Nat × Nat
  | _, 0 => (0, 0)
  | [], d + 1 => (0, d + 1)
  | c :: rest, d + 1 =>
    let r := scanDepth oc cc rest (if c = oc then d + 2 else if c = cc then d else d + 1)
    (r.1 + 1, r.2)

/-- The `while ((p = strchr(p, '$')))` loop of `check_variable_syntax`
(lines 98-138), returning the diagnostics it emits in order.  After a
`${`/`$[` opener the inner scan consumes `(scanDepth ...).1` further
characters and the outer loop resumes there.  The first argument is
recursion fuel: every outer iteration consumes at least one character,
so any fuel exceeding the text length makes the fuel pattern
unreachable and the function agree with the C loop. -/
def cvsLoop : Nat → List Char → List Diag
  | 0, _ => []
  | _ + 1, [] => []
  | fuel + 1, '$' :: '{' :: rest =>
    let r := scanDepth '{' '}' rest 1
    (if r.2 ≠ 0 then [Diag.unclosedVarRef] else []) ++ cvsLoop fuel (rest.drop r.1)
  | fuel + 1, '$' :: '[' :: rest =>
    let r := scanDepth '[' ']' rest 1
    (if r.2 ≠ 0 then [Diag.unclosedExprRef] else []) ++ cvsLoop fuel (rest.drop r.1)
  | fuel + 1, _ :: rest => cvsLoop fuel rest

/-- `check_variable_syntax` (lines 94-141): the list of diagnostics
emitted (the C function additionally returns `valid` = "no diagnostic
was emitted" and bumps `state->errors` once per diagnostic). -/
def check_variable_refs (s : List Char) : List Diag :=
  cvsLoop (s.length + 1) s

/-! ## `parse_extension` (lines 166-266) -/

/-- The comma-splitting loop of `parse_extension` (lines 194-212):
find the first two commas at paren/bracket depth 0 (braces and quotes
are ignored here), accumulating the first field in `acc` and the first
field's text in `fst` once the first comma is passed.  Returns the
three raw fields delimited by those commas (the third field is all of
the remaining text, commas included, because the loop `break`s at the
second comma), or `none` when fewer than two such commas exist. -/
def splitGo : List Char → Int → Int → List Char → Option (List Char) →
    Option (List Char × List Char × List Char)
  | [], _, _, _, _ => none
  | c :: rest, p, b, acc, fst =>
    if c = ',' ∧ p = 0 ∧ b = 0 then
      match fst with
      | none => splitGo rest p b [] (some acc.reverse)
      | some f1 => some (f1, acc.reverse, rest)
    else
      splitGo rest
        (if c = '(' then p + 1 else if c = ')' then p - 1 else p)
        (if c = '[' then b + 1 else if c = ']' then b - 1 else b)
        (c :: acc) fst

/-- Split the post-arrow data of an extension line into the three raw
fields `pattern`, `priority`, `app` (lines 194-225). -/
def splitFields (data : List Char) : Option (List Char × List Char × List Char) :=
  splitGo data 0 0 [] none

/-- Decimal digit value accumulator for `strtol`. -/
def digitsVal (ds : List Char) : Nat :=
  ds.foldl (fun a c => a * 10 + (c.toNat - 48)) 0

/-- `strtol(s, &endptr, 10)`: skip leading whitespace, an optional
sign, then decimal digits; returns the value and the text at `endptr`.
When no digit is consumed, the value is 0 and `endptr` is the original
`s`.  Overflow clamping to `LONG_MAX`/`LONG_MIN` is not modelled: it
preserves the sign and the `>= 1` comparison used at line 242, and
`endptr` is unaffected by it. -/
def strtol10 (s : List Char) : Int × List Char :=
  let s1 := s.dropWhile cIsSpace
  let signed : Bool × List Char :=
    match s1 with
    | '-' :: r => (true, r)
    | '+' :: r => (false, r)
    | _ => (false, s1)
  let ds := signed.2.takeWhile Char.isDigit
  if ds.isEmpty then (0, s)
  else ((if signed.1 then -1 else 1) * (digitsVal ds : Int), signed.2.dropWhile Char.isDigit)

/-- The priority validation of `parse_extension` (lines 229-249),
applied to the trimmed priority text: skipped entirely for `same`
lines; `hint` and `n` always pass; otherwise `strtol` must consume the
text up to `\0` or `(`, and the value must be `>= 1`. -/
def priorityDiag (is_same : Bool) (priority_str : List Char) : Option Diag :=
  if is_same then none
  else if priority_str = "hint".toList then none
  else if priority_str = "n".toList then none
  else
    let r := strtol10 priority_str
    match r.2 with
    | c :: _ =>
      if c ≠ '(' then some (.invalidPriority priority_str)
      else if r.1 < 1 then some .priorityTooSmall
      else none
    | [] => if r.1 < 1 then some .priorityTooSmall else none

/-- Lines 190-265 of `parse_extension`, after the arrow and keyword
checks.  NOTE on line 263: `check_variable_syntax(data, state)` is
called on `data` AFTER `*comma1 = '\0'` (line 221) and after
`pattern = trim(pattern)` (line 227, which writes a `'\0'` after the
last non-space character of the first field).  As a C string, `data`
at that point is exactly the trimmed pattern field (`data` itself has
no leading whitespace, being the result of `trim` at line 192), so the
variable-syntax check sees only the pattern field, not the whole
post-arrow text.  It is reached only when the priority check and the
balance check did not `return 0`. -/
def extenBody (is_same : Bool) (post : List Char) : List Diag :=
  let data := trim post
  match splitFields data with
  | none => [Diag.badExtenFormat]
  | some (patRaw, priRaw, appRaw) =>
    let priority_str := trim priRaw
    let app := trim appRaw
    let pattern := trim patRaw
    match priorityDiag is_same priority_str with
    | some d => [d]
    | none =>
      if app ≠ [] ∧ app.contains '(' then
        match check_balanced app with
        | .valid => check_variable_refs pattern
        | r => balanceDiags r
      else
        check_variable_refs pattern

/-- `parse_extension` (lines 166-266): the `=>` check (lines 167-172)
runs first, then the keyword check (lines 174-188; `strncasecmp`
prefix match, `exten` tested before `same`), then the body. -/
def parse_extension (line : List Char) : List Diag :=
  match afterArrow line with
  | none => [Diag.missingArrowExten]
  | some post =>
    let keyword := line.dropWhile cIsSpace
    if strncaseeq keyword "exten".toList then extenBody false post
    else if strncaseeq keyword "same".toList then extenBody true post
    else [Diag.unknownKeyword]

/-! ## `parse_context` (lines 144-163) and `parse_include` (lines 269-285) -/

/-- `parse_context` (lines 144-163), for a line whose first character
is `[` (the only way the driver calls it): truncate at the first `]`
(absent: error), trim the text after the leading `[` (empty: error),
else return the context name truncated to `MAX_VAR_NAME - 1 = 79`
characters by `strncpy` (line 161). -/
def parse_context (line : List Char) : List Diag × Option (List Char) :=
  if line.contains ']' then
    let inner := trim ((line.takeWhile (fun c => c ≠ ']')).drop 1)
    if inner = [] then ([Diag.emptyContextName], none)
    else ([], some (inner.take 79))
  else ([Diag.malformedContext], none)

/-- `parse_include` (lines 269-285). -/
def parse_include (line : List Char) : List Diag :=
  match afterArrow line with
  | none => [Diag.missingArrowInclude]
  | some post => if trim post = [] then [Diag.emptyInclude] else []

/-! ## The driver `validate_dialplan` (lines 288-372) -/

/-- The C struct `validator_state` (lines 17-22). -/
structure validator_state where
  errors : Nat
  warnings : Nat
  line_num : Nat
  current_context : List Char
deriving DecidableEq, Repr

/-- The driver state: the `validator_state` struct, the local
`in_context` flag of `validate_dialplan` (line 297), and the ordered
stream of diagnostics emitted so far (each tagged with the value of
`state.line_num` at emission time). -/
structure DriverState where
  st : validator_state
  in_context : Bool
  diags : List (Nat × Diag)
deriving DecidableEq, Repr

/-- Number of error-severity diagnostics in a list. -/
def countErrors (L : List Diag) : Nat :=
  (L.filter (fun d => !d.isWarning)).length

/-- Number of warning-severity diagnostics in a list. -/
def countWarnings (L : List Diag) : Nat :=
  (L.filter (fun d => d.isWarning)).length

/-- Emit a batch of diagnostics at the current line number, bumping
`errors`/`warnings` once per diagnostic as the C emission sites do. -/
def emit (s : DriverState) (L : List Diag) : DriverState :=
  { s with
    st := { s.st with
      errors := s.st.errors + countErrors L
      warnings := s.st.warnings + countWarnings L }
    diags := s.diags ++ L.map (fun d => (s.st.line_num, d)) }

/-- `state.line_num++` at the top of the loop body (line 300). -/
def bumpLine (s : DriverState) : DriverState :=
  { s with st := { s.st with line_num := s.st.line_num + 1 } }

/-- One iteration of the `while (fgets(...))` loop (lines 299-358):
increment the line number, skip comments/blanks, trim, then dispatch
in the source's order: context header (`trimmed[0] == '['`, line 314);
silent global assignment when not yet inside a context (lines
320-326); `exten`/`same` prefix (line 329); `include` prefix (line
335); `switch`/`eswitch`/`lswitch` prefix (lines 341-350); otherwise a
warning when inside a context (lines 353-357). -/
def processLine (s : DriverState) (line : List Char) : DriverState :=
  let s1 := bumpLine s
  if is_comment_or_blank line then s1
  else
    let trimmed := trim line
    if trimmed.head? = some '[' then
      let pc := parse_context trimmed
      let s2 := emit s1 pc.1
      let s3 :=
        match pc.2 with
        | some n => { s2 with st := { s2.st with current_context := n } }
        | none => s2
      { s3 with in_context := true }
    else if !s1.in_context && trimmed.contains '=' && !containsArrow trimmed then s1
    else if strncaseeq trimmed "exten".toList || strncaseeq trimmed "same".toList then
      emit s1 (parse_extension trimmed)
    else if strncaseeq trimmed "include".toList then
      emit s1 (parse_include trimmed)
    else if strncaseeq trimmed "switch".toList || strncaseeq trimmed "eswitch".toList
        || strncaseeq trimmed "lswitch".toList then
      if !containsArrow trimmed then emit s1 [Diag.missingArrowSwitch] else s1
    else if s1.in_context && decide (trimmed.length > 0) then
      emit s1 [Diag.unknownDirective trimmed]
    else s1

/-- The state before the first line: `validator_state state = {0}` and
`int in_context = 0` (lines 295-297). -/
def initState : DriverState :=
  ⟨⟨0, 0, 0, []⟩, false, []⟩

/-- `validate_dialplan` (lines 288-372) on an already-opened file,
modelled as a fold of `processLine` over the file's lines (trailing
newlines already stripped, as lines 303-304 do). -/
def validate_dialplan (lines : List (List Char)) : DriverState :=
  lines.foldl processLine initState

/-- The exit classification (lines 362-371): 0 when there are neither
errors nor warnings, else 1 exactly when `errors > 0`. -/
def final_exit (s : DriverState) : Nat :=
  if s.st.errors = 0 ∧ s.st.warnings = 0 then 0
  else if s.st.errors > 0 then 1 else 0

/-! ## Specification-side definitions used to state the claims -/

/-- The characters of `s` that lie outside quoted spans, under the same
quote/escape convention as `check_balanced` (a span opened by `"` or
`'` ends at the same character when not immediately preceded by a
backslash); the quote characters themselves are not included. -/
def stripQuoted : List Char → Option Char → Char → List Char
  | [], _, _ => []
  | c :: cs, some qc, prev =>
    if c = qc ∧ prev ≠ bslash then stripQuoted cs none c
    else stripQuoted cs (some qc) c
  | c :: cs, none, _ =>
    if c = '"' ∨ c = squote then stripQuoted cs (some c) c
    else c :: stripQuoted cs none c

/-- The true net delimiter imbalance of a string: for each of the three
delimiter kinds, the number of openers minus the number of closers
among the unquoted characters. -/
def netCounts (s : List Char) : Int × Int × Int :=
  let u := stripQuoted s none 'x'
  ((u.count '(' : Int) - (u.count ')' : Int),
   (u.count '[' : Int) - (u.count ']' : Int),
   (u.count '{' : Int) - (u.count '}' : Int))

/-- Strings composed only of matched delimiter pairs, quoted spans
(whose contents contain neither the quote character nor a backslash,
but may contain arbitrary bracket-like characters), and plain
non-delimiter non-quote characters. -/
inductive BalancedStr : List Char → Prop where
  | nil : BalancedStr []
  | append {s t : List Char} : BalancedStr s → BalancedStr t → BalancedStr (s ++ t)
  | parens {s : List Char} : BalancedStr s → BalancedStr ('(' :: s ++ [')'])
  | brackets {s : List Char} : BalancedStr s → BalancedStr ('[' :: s ++ [']'])
  | braces {s : List Char} : BalancedStr s → BalancedStr ('{' :: s ++ ['}'])
  | quoted {q : Char} {cs : List Char} : (q = '"' ∨ q = squote) →
      (∀ c ∈ cs, c ≠ q ∧ c ≠ bslash) → BalancedStr (q :: cs ++ [q])
  | char {c : Char} : c ≠ '(' → c ≠ ')' → c ≠ '[' → c ≠ ']' → c ≠ '{' → c ≠ '}' →
      c ≠ '"' → c ≠ squote → BalancedStr [c]

/-- The observable part of the driver state: everything except the
stored `current_context` name — the counters, the line number, the
`in_context` flag and the emitted diagnostic stream. -/
def obs (s : DriverState) : Nat × Nat × Nat × Bool × List (Nat × Diag) :=
  (s.st.errors, s.st.warnings, s.st.line_num, s.in_context, s.diags)

/-- A line that parses as a well-formed context header: after trimming
it starts with `[`, and `parse_context` accepts it without diagnostics
(so it contains `]` and its name is non-empty after trimming). -/
def goodHeader (l : List Char) : Bool :=
  ((trim l).head? == some '[') && ((parse_context (trim l)).1 == [])

/-- Two input lines that are either identical or both well-formed
context headers (i.e. they may differ only in the characters of their
context names and surrounding header text). -/
def lineEquiv (a b : List Char) : Prop :=
  a = b ∨ (goodHeader a = true ∧ goodHeader b = true)

/-! ## Theorems -/

theorem rtrim_eq_rdropWhile (s : List Char) : rtrim s = List.rdropWhile cIsSpace s := rfl

theorem bumpLine_in_context (s : DriverState) : (bumpLine s).in_context = s.in_context := rfl

theorem emit_in_context (s : DriverState) (L : List Diag) :
    (emit s L).in_context = s.in_context := rfl

/-- The head of a trimmed list is the first non-whitespace character. -/
theorem head_of_trim_head {s : List Char} {c : Char} (h : (trim s).head? = some c) :
    (s.dropWhile cIsSpace).head? = some c := by
  unfold trim at h
  rw [rtrim_eq_rdropWhile] at h
  have hpre := List.rdropWhile_prefix cIsSpace (s.dropWhile cIsSpace)
  cases h' : List.rdropWhile cIsSpace (s.dropWhile cIsSpace) with
  | nil => rw [h'] at h; simp at h
  | cons d t =>
    rw [h'] at h hpre
    simp at h
    obtain ⟨u, hu⟩ := hpre
    rw [← hu, h]
    simp

theorem trim_head_cons {c : Char} {s : List Char} (h : cIsSpace c = false) :
    (trim (c :: s)).head? = some c := by
  unfold trim
  rw [List.dropWhile_cons, h]
  simp only [Bool.false_eq_true, if_false]
  rw [rtrim_eq_rdropWhile]
  have hpre := List.rdropWhile_prefix cIsSpace (c :: s)
  cases h' : List.rdropWhile cIsSpace (c :: s) with
  | nil =>
    rw [List.rdropWhile_eq_nil_iff] at h'
    have := h' c (by simp)
    rw [h] at this
    cases this
  | cons d t =>
    rw [h'] at hpre
    obtain ⟨u, hu⟩ := hpre
    simp only [List.cons_append] at hu
    rw [List.head?_cons, (List.cons.injEq .. ).mp hu |>.1]

/-- A line whose trimmed form starts with `[` is not a comment/blank. -/
theorem not_comment_of_trim_bracket {l : List Char} (h : (trim l).head? = some '[') :
    is_comment_or_blank l = false := by
  have hd := head_of_trim_head h
  unfold is_comment_or_blank
  cases h' : l.dropWhile cIsSpace with
  | nil => rw [h'] at hd; simp at hd
  | cons d t =>
    rw [h'] at hd
    simp only [List.head?_cons, Option.some.injEq] at hd
    subst hd
    rfl

/-- Counterexample for claim C2: (i) a line whose first token is `extensions`
(so the first whitespace-delimited token does not equal `exten`) is
nevertheless dispatched to the extension parser — it produces the
missing-`=>` error and no unknown-directive warning; (ii) a line whose
first token is `exten` but that lacks `=>` and contains `=`, processed
while no context is open, is consumed silently as a global assignment
— no missing-`=>` error is produced. -/
theorem C2_counterexample :
    (validate_dialplan ["[default]".toList, "extensions abc".toList]).diags
        = [(2, Diag.missingArrowExten)] ∧
    (validate_dialplan ["[default]".toList, "extensions abc".toList]).st.warnings = 0 ∧
    (validate_dialplan ["exten = a,1,NoOp()".toList]).diags = [] ∧
    (validate_dialplan ["exten = a,1,NoOp()".toList]).st.errors = 0 :=
  ⟨rfl, rfl, rfl, rfl⟩

/-- Claim C2 (amended): a trimmed non-comment, non-header line is dispatched
to the extension parser exactly when it case-insensitively BEGINS with
`exten` or `same` (prefix match — `extensions` also qualifies) AND the
global-assignment rule did not already consume it: when the validator
is not inside any context, a line containing `=` but no `=>` is
silently skipped first, even if it starts with `exten`. -/
theorem C2_amended :
    (∀ (s : DriverState) (l : List Char),
      is_comment_or_blank l = false →
      (trim l).head? ≠ some '[' →
      (s.in_context = true ∨ (trim l).contains '=' = false ∨
        containsArrow (trim l) = true) →
      (strncaseeq (trim l) "exten".toList = true ∨
        strncaseeq (trim l) "same".toList = true) →
      processLine s l = emit (bumpLine s) (parse_extension (trim l))) ∧
    (∀ (s : DriverState) (l : List Char),
      is_comment_or_blank l = false →
      (trim l).head? ≠ some '[' →
      s.in_context = false →
      (trim l).contains '=' = true →
      containsArrow (trim l) = false →
      processLine s l = bumpLine s) := by
  constructor
  · intro s l h1 h2 h3 h4
    unfold processLine
    rw [if_neg (by rw [h1]; exact Bool.false_ne_true), if_neg h2]
    have hga : (!(bumpLine s).in_context && (trim l).contains '=' &&
        !containsArrow (trim l)) = false := by
      rcases h3 with h | h | h
      · rw [bumpLine_in_context, h]; rfl
      · rw [h, Bool.and_false, Bool.false_and]
      · rw [h, Bool.not_true, Bool.and_false]
    rw [hga]
    simp only [Bool.false_eq_true, if_false]
    have hd : (strncaseeq (trim l) "exten".toList ||
        strncaseeq (trim l) "same".toList) = true := by
      rcases h4 with h | h
      · rw [h]; rfl
      · rw [h]; exact Bool.or_true _
    rw [hd]
    simp
  · intro s l h1 h2 h3 h4 h5
    unfold processLine
    rw [if_neg (by rw [h1]; exact Bool.false_ne_true), if_neg h2]
    have hga : (!(bumpLine s).in_context && (trim l).contains '=' &&
        !containsArrow (trim l)) = true := by
      rw [bumpLine_in_context, h3, h4, h5]
      rfl
    rw [hga]
    simp

/-- Witness for the amended claim C2: concrete instances of both dispatch facts. -/
theorem C2_amended_witness :
    processLine (⟨⟨0, 0, 1, []⟩, true, []⟩ : DriverState) "extensions abc".toList
        = emit (bumpLine (⟨⟨0, 0, 1, []⟩, true, []⟩ : DriverState))
            (parse_extension (trim "extensions abc".toList)) ∧
    processLine initState "exten = a,1,NoOp()".toList = bumpLine initState :=
  ⟨C2_amended.1 _ _ (by decide) (by decide) (Or.inl rfl) (Or.inl (by decide)),
   C2_amended.2 _ _ (by decide) (by decide) rfl (by decide) (by decide)⟩

/-- Claim C1: evaluation of the code at the claimed input
`[default]` / `exten => s,1,Set(VAR=${CALLERID(num)`.  The validator
emits exactly ONE error at line 2 — the unbalanced-delimiters
diagnostic with counters parens=1, brackets=0, braces=1 — and no
unclosed-reference diagnostic: `parse_extension` returns at line 257
when `check_balanced` fails on the application text, so
`check_variable_syntax` is never reached (and when it is reached on
other lines, it sees only the pattern field, `data` having been
truncated at the first top-level comma by line 221). -/
theorem C1_scenarioE_eval :
    (validate_dialplan ["[default]".toList,
        "exten => s,1,Set(VAR=$\x7bCALLERID(num)".toList]).diags
      = [(2, Diag.unbalanced 1 0 1)] ∧
    (validate_dialplan ["[default]".toList,
        "exten => s,1,Set(VAR=$\x7bCALLERID(num)".toList]).st.errors = 1 := by
  constructor <;> rfl

/-- Claim C4: evaluation of the code at the claimed input `[default]` /
`exten => s,1,Dial(SIP/peer,30` / `same => n,Hangup()`.  Besides the
claimed unbalanced-delimiters error at line 2, the validator emits a
SECOND error at line 3: `same => n,Hangup()` has only one top-level
comma after the arrow, so `parse_extension` rejects it at line 214
with the must-have-format diagnostic. -/
theorem C4_scenarioB_eval :
    (validate_dialplan ["[default]".toList,
        "exten => s,1,Dial(SIP/peer,30".toList,
        "same => n,Hangup()".toList]).diags
      = [(2, Diag.unbalanced 1 0 0), (3, Diag.badExtenFormat)] ∧
    (validate_dialplan ["[default]".toList,
        "exten => s,1,Dial(SIP/peer,30".toList,
        "same => n,Hangup()".toList]).st.errors = 2 := by
  constructor <;> rfl

/-- Claim C5: priority validation is skipped entirely for `same` lines; for
`exten` lines, priority `0` is rejected with the must-be-`>= 1` error,
`1`, `n`, `hint` and `5(label)` are accepted, and `abc` is rejected as
invalid format. -/
theorem C5_priority_boundary :
    (∀ ps : List Char, priorityDiag true ps = none) ∧
    parse_extension "exten => s,0,NoOp()".toList = [Diag.priorityTooSmall] ∧
    parse_extension "exten => s,1,NoOp()".toList = [] ∧
    parse_extension "exten => s,n,NoOp()".toList = [] ∧
    parse_extension "exten => s,hint,NoOp()".toList = [] ∧
    parse_extension "exten => s,abc,NoOp()".toList = [Diag.invalidPriority "abc".toList] ∧
    parse_extension "exten => s,5(label),NoOp()".toList = [] ∧
    parse_extension "same => s,0,NoOp()".toList = [] := by
  refine ⟨fun ps => rfl, ?_, ?_, ?_, ?_, ?_, ?_, ?_⟩ <;> rfl

/-- Every branch of `processLine` leaves `in_context` true once it is
true (only the context-header branch writes it, and it writes `true`). -/
theorem processLine_preserves_in_context {s : DriverState} (l : List Char)
    (h : s.in_context = true) : (processLine s l).in_context = true := by
  simp only [processLine]
  split
  · exact h
  · split
    · rfl
    · split
      · exact h
      · split
        · exact h
        · split
          · exact h
          · split
            · split
              · exact h
              · exact h
            · split
              · exact h
              · exact h

/-- Claim C7: the in-context flag starts false, becomes true on processing
any line beginning with `[` (whether or not the header parses without
errors), and once true stays true for the rest of the file. -/
theorem C7_in_context_monotone :
    (validate_dialplan []).in_context = false ∧
    (∀ (s : DriverState) (rest : List Char),
      (processLine s ('[' :: rest)).in_context = true) ∧
    (∀ (s : DriverState) (lines : List (List Char)),
      s.in_context = true → (lines.foldl processLine s).in_context = true) := by
  refine ⟨rfl, ?_, ?_⟩
  · intro s rest
    have hh : (trim ('[' :: rest)).head? = some '[' := trim_head_cons (by decide)
    simp only [processLine]
    rw [if_neg (by rw [not_comment_of_trim_bracket hh]; exact Bool.false_ne_true),
      if_pos hh]
  · intro s lines
    induction lines generalizing s with
    | nil => intro h; exact h
    | cons l ls ih =>
      intro h
      rw [List.foldl_cons]
      exact ih _ (processLine_preserves_in_context l h)

/-- Witness for claim C7: a concrete application of the monotonicity part. -/
theorem C7_witness :
    ((["exten => s,1,NoOp()".toList]).foldl processLine
        (⟨⟨0, 0, 1, []⟩, true, []⟩ : DriverState)).in_context = true :=
  C7_in_context_monotone.2.2 _ _ rfl

theorem cvsLoop_nil (fuel : Nat) : cvsLoop fuel [] = [] := by
  cases fuel <;> rfl

/-- If the inner depth scan of `check_variable_syntax` ends with a
nonzero count, it consumed all the remaining text (the `while` loop
only stops at depth 0 or at `*p == 0`). -/
theorem scanDepth_exhausts (oc cc : Char) :
    ∀ (l : List Char) (d : Nat),
      (scanDepth oc cc l d).2 = 0 ∨ l.drop (scanDepth oc cc l d).1 = [] := by
  intro l
  induction l with
  | nil =>
    intro d
    cases d with
    | zero => left; rfl
    | succ d => right; rfl
  | cons c rest ih =>
    intro d
    cases d with
    | zero => left; rfl
    | succ d =>
      rcases ih (if c = oc then d + 2 else if c = cc then d else d + 1) with h | h
      · left; simpa [scanDepth] using h
      · right; simpa [scanDepth, List.drop_succ_cons] using h

theorem cvsLoop_length_le_one (fuel : Nat) (s : List Char) :
    (cvsLoop fuel s).length ≤ 1 := by
  induction fuel, s using cvsLoop.induct with
  | case1 x => simp [cvsLoop]
  | case2 n => simp [cvsLoop]
  | case3 fuel rest r ih =>
    by_cases h : (scanDepth '{' '}' rest 1).2 = 0
    · simpa [cvsLoop, h] using ih
    · have hdrop : rest.drop (scanDepth '{' '}' rest 1).1 = [] :=
        (scanDepth_exhausts '{' '}' rest 1).resolve_left h
      simp [cvsLoop, h, hdrop, cvsLoop_nil]
  | case4 fuel rest r ih =>
    by_cases h : (scanDepth '[' ']' rest 1).2 = 0
    · simpa [cvsLoop, h] using ih
    · have hdrop : rest.drop (scanDepth '[' ']' rest 1).1 = [] :=
        (scanDepth_exhausts '[' ']' rest 1).resolve_left h
      simp [cvsLoop, h, hdrop, cvsLoop_nil]
  | case5 fuel head rest h1 h2 ih =>
    rw [cvsLoop.eq_5 fuel head rest h1 h2]
    exact ih

/-- Claim C9: one invocation of `check_variable_syntax` emits at most one
diagnostic, hence increments `error_count` by at most 1, because an
unterminated reference's depth scan consumes the remainder of the
string, leaving nothing for the outer `$` scan to examine. -/
theorem C9_var_syntax_single_diag (s : List Char) :
    (check_variable_refs s).length ≤ 1 ∧
    countErrors (check_variable_refs s) ≤ 1 ∧
    (∀ (l : List Char) (d : Nat),
      (scanDepth '{' '}' l d).2 = 0 ∨ l.drop (scanDepth '{' '}' l d).1 = []) ∧
    (∀ (l : List Char) (d : Nat),
      (scanDepth '[' ']' l d).2 = 0 ∨ l.drop (scanDepth '[' ']' l d).1 = []) := by
  refine ⟨cvsLoop_length_le_one _ _, ?_, scanDepth_exhausts '{' '}', scanDepth_exhausts '[' ']'⟩
  calc countErrors (check_variable_refs s)
      ≤ (check_variable_refs s).length := List.length_filter_le _ _
    _ ≤ 1 := cvsLoop_length_le_one _ _

theorem countErrors_append (A B : List Diag) :
    countErrors (A ++ B) = countErrors A + countErrors B := by
  simp [countErrors, List.filter_append]

theorem countWarnings_append (A B : List Diag) :
    countWarnings (A ++ B) = countWarnings A + countWarnings B := by
  simp [countWarnings, List.filter_append]

theorem map_snd_pairs (n : Nat) (L : List Diag) :
    (L.map (fun d => (n, d))).map Prod.snd = L := by
  simp

/-- Each line's processing appends one batch of diagnostics, tagged
with the incremented line number, and bumps the two counters by
exactly the number of error/warning diagnostics in that batch. -/
theorem processLine_shape (s : DriverState) (l : List Char) :
    ∃ L : List Diag,
      (processLine s l).diags = s.diags ++ L.map (fun d => (s.st.line_num + 1, d)) ∧
      (processLine s l).st.errors = s.st.errors + countErrors L ∧
      (processLine s l).st.warnings = s.st.warnings + countWarnings L := by
  simp only [processLine]
  split
  · exact ⟨[], by simp [bumpLine, countErrors, countWarnings]⟩
  · split
    · cases hn : (parse_context (trim l)).2 with
      | none =>
        exact ⟨(parse_context (trim l)).1, by
          simp [hn, emit, bumpLine]⟩
      | some nm =>
        exact ⟨(parse_context (trim l)).1, by
          simp [hn, emit, bumpLine]⟩
    · split
      · exact ⟨[], by simp [bumpLine, countErrors, countWarnings]⟩
      · split
        · exact ⟨parse_extension (trim l), by simp [emit, bumpLine]⟩
        · split
          · exact ⟨parse_include (trim l), by simp [emit, bumpLine]⟩
          · split
            · split
              · exact ⟨[Diag.missingArrowSwitch], by simp [emit, bumpLine]⟩
              · exact ⟨[], by simp [bumpLine, countErrors, countWarnings]⟩
            · split
              · exact ⟨[Diag.unknownDirective (trim l)], by simp [emit, bumpLine]⟩
              · exact ⟨[], by simp [bumpLine, countErrors, countWarnings]⟩

/-- Claim C8: the error/warning counters reported at the end equal the
number of error/warning diagnostics emitted during the run, and both
counters are monotonically non-decreasing across the processing of
successive lines. -/
theorem C8_counts :
    (∀ lines : List (List Char),
      (validate_dialplan lines).st.errors
          = countErrors ((validate_dialplan lines).diags.map Prod.snd) ∧
      (validate_dialplan lines).st.warnings
          = countWarnings ((validate_dialplan lines).diags.map Prod.snd)) ∧
    (∀ (s : DriverState) (l : List Char),
      s.st.errors ≤ (processLine s l).st.errors ∧
      s.st.warnings ≤ (processLine s l).st.warnings) ∧
    (∀ (s : DriverState) (lines : List (List Char)),
      s.st.errors ≤ (lines.foldl processLine s).st.errors ∧
      s.st.warnings ≤ (lines.foldl processLine s).st.warnings) := by
  have mono : ∀ (s : DriverState) (l : List Char),
      s.st.errors ≤ (processLine s l).st.errors ∧
      s.st.warnings ≤ (processLine s l).st.warnings := by
    intro s l
    obtain ⟨L, _, h2, h3⟩ := processLine_shape s l
    rw [h2, h3]
    exact ⟨Nat.le_add_right _ _, Nat.le_add_right _ _⟩
  have monoFold : ∀ (lines : List (List Char)) (s : DriverState),
      s.st.errors ≤ (lines.foldl processLine s).st.errors ∧
      s.st.warnings ≤ (lines.foldl processLine s).st.warnings := by
    intro lines
    induction lines with
    | nil => intro s; exact ⟨Nat.le_refl _, Nat.le_refl _⟩
    | cons l ls ih =>
      intro s
      rw [List.foldl_cons]
      exact ⟨Nat.le_trans (mono s l).1 (ih (processLine s l)).1,
        Nat.le_trans (mono s l).2 (ih (processLine s l)).2⟩
  have inv : ∀ (lines : List (List Char)) (s : DriverState),
      s.st.errors = countErrors (s.diags.map Prod.snd) →
      s.st.warnings = countWarnings (s.diags.map Prod.snd) →
      (lines.foldl processLine s).st.errors
          = countErrors ((lines.foldl processLine s).diags.map Prod.snd) ∧
      (lines.foldl processLine s).st.warnings
          = countWarnings ((lines.foldl processLine s).diags.map Prod.snd) := by
    intro lines
    induction lines with
    | nil => intro s h1 h2; exact ⟨h1, h2⟩
    | cons l ls ih =>
      intro s h1 h2
      rw [List.foldl_cons]
      obtain ⟨L, hd, he, hw⟩ := processLine_shape s l
      refine ih (processLine s l) ?_ ?_
      · rw [he, hd, List.map_append, countErrors_append, map_snd_pairs, h1]
      · rw [hw, hd, List.map_append, countWarnings_append, map_snd_pairs, h2]
  exact ⟨fun lines => inv lines initState rfl rfl, mono, fun s lines => monoFold lines s⟩

theorem balStep_open_paren (p b r : Int) (pv : Char) (h : ¬(p + 1 < 0 ∨ b < 0 ∨ r < 0)) :
    balStep ⟨p, b, r, none, pv⟩ '(' = some ⟨p + 1, b, r, none, '('⟩ := by
  simp +decide [balStep, h]

theorem balStep_close_paren (p b r : Int) (pv : Char) (h : ¬(p - 1 < 0 ∨ b < 0 ∨ r < 0)) :
    balStep ⟨p, b, r, none, pv⟩ ')' = some ⟨p - 1, b, r, none, ')'⟩ := by
  simp +decide [balStep, h]
  omega

theorem balStep_open_bracket (p b r : Int) (pv : Char) (h : ¬(p < 0 ∨ b + 1 < 0 ∨ r < 0)) :
    balStep ⟨p, b, r, none, pv⟩ '[' = some ⟨p, b + 1, r, none, '['⟩ := by
  simp +decide [balStep, h]

theorem balStep_close_bracket (p b r : Int) (pv : Char) (h : ¬(p < 0 ∨ b - 1 < 0 ∨ r < 0)) :
    balStep ⟨p, b, r, none, pv⟩ ']' = some ⟨p, b - 1, r, none, ']'⟩ := by
  simp +decide [balStep, h]
  omega

theorem balStep_open_brace (p b r : Int) (pv : Char) (h : ¬(p < 0 ∨ b < 0 ∨ r + 1 < 0)) :
    balStep ⟨p, b, r, none, pv⟩ '{' = some ⟨p, b, r + 1, none, '{'⟩ := by
  simp +decide [balStep, h]

theorem balStep_close_brace (p b r : Int) (pv : Char) (h : ¬(p < 0 ∨ b < 0 ∨ r - 1 < 0)) :
    balStep ⟨p, b, r, none, pv⟩ '}' = some ⟨p, b, r - 1, none, '}'⟩ := by
  simp +decide [balStep, h]
  omega

theorem balStep_quote_open (p b r : Int) (pv c : Char) (hc : c = '"' ∨ c = squote)
    (h : ¬(p < 0 ∨ b < 0 ∨ r < 0)) :
    balStep ⟨p, b, r, none, pv⟩ c = some ⟨p, b, r, some c, c⟩ := by
  rcases hc with rfl | rfl <;> simp +decide [balStep, h]

theorem balStep_other (p b r : Int) (pv c : Char)
    (h1 : c ≠ '(') (h2 : c ≠ ')') (h3 : c ≠ '[') (h4 : c ≠ ']')
    (h5 : c ≠ '{') (h6 : c ≠ '}') (h7 : c ≠ '"') (h8 : c ≠ squote)
    (h : ¬(p < 0 ∨ b < 0 ∨ r < 0)) :
    balStep ⟨p, b, r, none, pv⟩ c = some ⟨p, b, r, none, c⟩ := by
  simp [balStep, h1, h2, h3, h4, h5, h6, h7, h8, h]

theorem balStep_in_quote_skip (p b r : Int) (qc pv c : Char) (hne : c ≠ qc) :
    balStep ⟨p, b, r, some qc, pv⟩ c = some ⟨p, b, r, some qc, c⟩ := by
  simp [balStep, hne]

theorem balStep_in_quote_close (p b r : Int) (qc pv : Char) (hpv : pv ≠ bslash) :
    balStep ⟨p, b, r, some qc, pv⟩ qc = some ⟨p, b, r, none, qc⟩ := by
  simp [balStep, hpv]

theorem balScan_append (s t : List Char) (st : BalSt) :
    balScan (s ++ t) st = (balScan s st).bind (balScan t) := by
  induction s generalizing st with
  | nil => simp [balScan]
  | cons c cs ih =>
    rw [List.cons_append]
    simp only [balScan]
    cases balStep st c with
    | none => rfl
    | some st' => exact ih st'

theorem getLastD_mem_or {α : Type _} (l : List α) (d : α) :
    l.getLastD d = d ∨ l.getLastD d ∈ l := by
  induction l generalizing d with
  | nil => left; rfl
  | cons c t ih =>
    rw [List.getLastD_cons]
    rcases ih c with h | h
    · right; rw [h]; exact List.mem_cons_self _ _
    · right; exact List.mem_cons_of_mem _ h

theorem getLastD_append (s t : List Char) (d : Char) :
    (s ++ t).getLastD d = t.getLastD (s.getLastD d) := by
  induction s generalizing d with
  | nil => rfl
  | cons c cs ih => rw [List.cons_append, List.getLastD_cons, List.getLastD_cons, ih]

/-- Scanning inside a quoted span whose characters never match the
quote character leaves everything but `prev` unchanged. -/
theorem balScan_in_quote (q : Char) :
    ∀ (cs : List Char), (∀ c ∈ cs, c ≠ q) →
    ∀ (p b r : Int) (pv : Char),
      balScan cs ⟨p, b, r, some q, pv⟩ = some ⟨p, b, r, some q, cs.getLastD pv⟩ := by
  intro cs
  induction cs with
  | nil => intro _ p b r pv; rfl
  | cons c cs ih =>
    intro hcs p b r pv
    have hc : c ≠ q := hcs c (List.mem_cons_self c cs)
    simp only [balScan, balStep_in_quote_skip p b r q pv c hc]
    rw [List.getLastD_cons]
    exact ih (fun x hx => hcs x (List.mem_cons_of_mem _ hx)) p b r c

/-- Scanning a whole quoted span (opening quote, escape-free content,
closing quote) leaves the counters unchanged and stays outside quotes. -/
theorem balScan_quoted (q : Char) (cs : List Char) (hq : q = '"' ∨ q = squote)
    (hcs : ∀ c ∈ cs, c ≠ q ∧ c ≠ bslash) (p b r : Int) (pv : Char)
    (h : ¬(p < 0 ∨ b < 0 ∨ r < 0)) :
    balScan (q :: cs ++ [q]) ⟨p, b, r, none, pv⟩ = some ⟨p, b, r, none, q⟩ := by
  simp only [balScan, balStep_quote_open p b r pv q hq h, List.append_eq]
  rw [balScan_append, balScan_in_quote q cs (fun c hc => (hcs c hc).1) p b r q,
    Option.some_bind]
  have hlast : cs.getLastD q ≠ bslash := by
    rcases getLastD_mem_or cs q with h' | h'
    · rw [h']; rcases hq with rfl | rfl <;> decide
    · exact (hcs _ h').2
  simp only [balScan, balStep_in_quote_close p b r q _ hlast]

/-- Scanning any `BalancedStr` text from a non-negative, out-of-quote
state never fails and returns to exactly the same counters. -/
theorem balScan_of_balanced {s : List Char} (hs : BalancedStr s) :
    ∀ (p b r : Int) (pv : Char), 0 ≤ p → 0 ≤ b → 0 ≤ r →
      balScan s ⟨p, b, r, none, pv⟩ = some ⟨p, b, r, none, s.getLastD pv⟩ := by
  induction hs with
  | nil => intro p b r pv _ _ _; rfl
  | @append s t _ _ ihs iht =>
    intro p b r pv hp hb hr
    rw [balScan_append, ihs p b r pv hp hb hr, Option.some_bind, getLastD_append]
    exact iht p b r _ hp hb hr
  | @parens inner _ ih =>
    intro p b r pv hp hb hr
    simp only [balScan, balStep_open_paren p b r pv (by omega), List.append_eq]
    rw [balScan_append, ih (p + 1) b r '(' (by omega) hb hr, Option.some_bind]
    simp only [balScan, balStep_close_paren (p + 1) b r _ (by omega)]
    rw [show ('(' :: inner ++ [')']) = ('(' :: inner) ++ [')'] from by simp,
      List.getLastD_concat]
    have hpp : p + 1 - 1 = p := by omega
    rw [hpp]
  | @brackets inner _ ih =>
    intro p b r pv hp hb hr
    simp only [balScan, balStep_open_bracket p b r pv (by omega), List.append_eq]
    rw [balScan_append, ih p (b + 1) r '[' hp (by omega) hr, Option.some_bind]
    simp only [balScan, balStep_close_bracket p (b + 1) r _ (by omega)]
    rw [show ('[' :: inner ++ [']']) = ('[' :: inner) ++ [']'] from by simp,
      List.getLastD_concat]
    have hbb : b + 1 - 1 = b := by omega
    rw [hbb]
  | @braces inner _ ih =>
    intro p b r pv hp hb hr
    simp only [balScan, balStep_open_brace p b r pv (by omega), List.append_eq]
    rw [balScan_append, ih p b (r + 1) '{' hp hb (by omega), Option.some_bind]
    simp only [balScan, balStep_close_brace p b (r + 1) _ (by omega)]
    rw [show ('{' :: inner ++ ['}']) = ('{' :: inner) ++ ['}'] from by simp,
      List.getLastD_concat]
    have hrr : r + 1 - 1 = r := by omega
    rw [hrr]
  | @quoted q cs hq hcs =>
    intro p b r pv hp hb hr
    rw [balScan_quoted q cs hq hcs p b r pv (by omega),
      show (q :: cs ++ [q]) = (q :: cs) ++ [q] from by simp, List.getLastD_concat]
  | @char c h1 h2 h3 h4 h5 h6 h7 h8 =>
    intro p b r pv hp hb hr
    simp only [balScan, balStep_other p b r pv c h1 h2 h3 h4 h5 h6 h7 h8 (by omega)]
    rfl

/-- When the scan of `check_balanced` completes without early exit,
its final counters are the initial ones plus the net opener/closer
counts of the unquoted characters. -/
theorem balScan_counts :
    ∀ (s : List Char) (st st' : BalSt), balScan s st = some st' →
      st'.parens = st.parens + ((stripQuoted s st.quote st.prev).count '(' : Int)
          - ((stripQuoted s st.quote st.prev).count ')' : Int) ∧
      st'.brackets = st.brackets + ((stripQuoted s st.quote st.prev).count '[' : Int)
          - ((stripQuoted s st.quote st.prev).count ']' : Int) ∧
      st'.braces = st.braces + ((stripQuoted s st.quote st.prev).count '{' : Int)
          - ((stripQuoted s st.quote st.prev).count '}' : Int) := by
  intro s
  induction s with
  | nil =>
    intro st st' h
    simp only [balScan, Option.some.injEq] at h
    subst h
    simp [stripQuoted]
  | cons c cs ih =>
    intro st st' h
    simp only [balScan] at h
    cases hstep : balStep st c with
    | none => rw [hstep] at h; exact absurd h (by simp)
    | some st₁ =>
      rw [hstep] at h
      have IH := ih st₁ st' h
      rcases hq : st.quote with _ | qc
      · -- outside quotes
        by_cases hqo : c = '"' ∨ c = squote
        · -- quote opener
          simp only [balStep, hq, if_pos hqo] at hstep
          split at hstep
          · exact Option.noConfusion hstep
          · injection hstep with hst
            subst hst
            simp only [stripQuoted, if_pos hqo]
            simpa using IH
        · -- delimiter or plain character
          by_cases h1 : c = '('
          · subst h1
            simp +decide [balStep, hq] at hstep
            obtain ⟨-, hst⟩ := hstep
            subst hst
            simp +decide [stripQuoted, List.count_cons] at IH ⊢
            omega
          · by_cases h2 : c = ')'
            · subst h2
              simp +decide [balStep, hq] at hstep
              obtain ⟨-, hst⟩ := hstep
              subst hst
              simp +decide [stripQuoted, List.count_cons] at IH ⊢
              omega
            · by_cases h3 : c = '['
              · subst h3
                simp +decide [balStep, hq] at hstep
                obtain ⟨-, hst⟩ := hstep
                subst hst
                simp +decide [stripQuoted, List.count_cons] at IH ⊢
                omega
              · by_cases h4 : c = ']'
                · subst h4
                  simp +decide [balStep, hq] at hstep
                  obtain ⟨-, hst⟩ := hstep
                  subst hst
                  simp +decide [stripQuoted, List.count_cons] at IH ⊢
                  omega
                · by_cases h5 : c = '{'
                  · subst h5
                    simp +decide [balStep, hq] at hstep
                    obtain ⟨-, hst⟩ := hstep
                    subst hst
                    simp +decide [stripQuoted, List.count_cons] at IH ⊢
                    omega
                  · by_cases h6 : c = '}'
                    · subst h6
                      simp +decide [balStep, hq] at hstep
                      obtain ⟨-, hst⟩ := hstep
                      subst hst
                      simp +decide [stripQuoted, List.count_cons] at IH ⊢
                      omega
                    · -- plain character
                      simp [balStep, hq, hqo, h1, h2, h3, h4, h5, h6] at hstep
                      obtain ⟨-, hst⟩ := hstep
                      subst hst
                      simp [stripQuoted, hqo, h1, h2, h3, h4, h5, h6,
                        List.count_cons] at IH ⊢
                      omega
      · -- inside a quote
        by_cases hcq : c = qc ∧ st.prev ≠ bslash
        · simp only [balStep, hq, if_pos hcq, Option.some.injEq] at hstep
          subst hstep
          simp only [stripQuoted, if_pos hcq]
          simpa using IH
        · simp only [balStep, hq, if_neg hcq, Option.some.injEq] at hstep
          subst hstep
          simp only [stripQuoted, if_neg hcq]
          simpa using IH

/-- Counterexample for claim C3: the input `(])` contains exactly one unmatched
closing delimiter (`]`; its parentheses are matched), and
`check_balanced` returns invalid — but via the early-exit
`tooManyClosing` outcome, whose diagnostic reports NO counter values;
it is not the counter-reporting `unbalanced` outcome with the true net
imbalance (0, -1, 0). -/
theorem C3_counterexample :
    check_balanced ['(', ']', ')'] = BalanceResult.tooManyClosing ∧
    netCounts ['(', ']', ')'] = (0, -1, 0) ∧
    BalanceResult.tooManyClosing ≠ BalanceResult.unbalanced 0 (-1) 0 :=
  ⟨rfl, rfl, by decide⟩

/-- Claim C3 (amended): `check_balanced` accepts every string built from
matched delimiter pairs, escape-free quoted spans and plain
characters; the instant a counter goes negative it fails with the
`tooManyClosing` outcome without scanning the remaining text (appending
anything cannot change that outcome), and that diagnostic carries no
counters; when instead the scan completes and reports the `unbalanced`
diagnostic, its counters equal the true net imbalance of the unquoted
text. -/
theorem C3_amended :
    (∀ s : List Char, BalancedStr s → check_balanced s = BalanceResult.valid) ∧
    (∀ s₁ s₂ : List Char, check_balanced s₁ = BalanceResult.tooManyClosing →
      check_balanced (s₁ ++ s₂) = BalanceResult.tooManyClosing) ∧
    (∀ (s : List Char) (p b r : Int),
      check_balanced s = BalanceResult.unbalanced p b r → netCounts s = (p, b, r)) := by
  refine ⟨?_, ?_, ?_⟩
  · intro s hs
    unfold check_balanced
    rw [balScan_of_balanced hs 0 0 0 'x' le_rfl le_rfl le_rfl]
    simp
  · intro s₁ s₂ h
    unfold check_balanced at h ⊢
    cases hsc : balScan s₁ ⟨0, 0, 0, none, 'x'⟩ with
    | none => rw [balScan_append, hsc]; rfl
    | some st =>
      rw [hsc] at h
      simp only [] at h
      exfalso
      split at h
      · exact BalanceResult.noConfusion h
      · split at h
        · exact BalanceResult.noConfusion h
        · exact BalanceResult.noConfusion h
  · intro s p b r h
    unfold check_balanced at h
    cases hsc : balScan s ⟨0, 0, 0, none, 'x'⟩ with
    | none => rw [hsc] at h; exact absurd h (by simp)
    | some st =>
      rw [hsc] at h
      simp only [] at h
      have hc := balScan_counts s _ _ hsc
      simp only at hc
      split at h
      · exact absurd h (by simp)
      · split at h
        · injection h with hp hbk hbr
          subst hp; subst hbk; subst hbr
          unfold netCounts
          obtain ⟨h1, h2, h3⟩ := hc
          simp only [Prod.mk.injEq]
          omega
        · exact absurd h (by simp)

/-- Witness for the amended claim C3: concrete applications of all three parts. -/
theorem C3_amended_witness :
    check_balanced ['(', 'a', 'b', ')'] = BalanceResult.valid ∧
    check_balanced (['(', ']'] ++ [')', '[']) = BalanceResult.tooManyClosing ∧
    netCounts ['(', '('] = (2, 0, 0) := by
  refine ⟨?_, C3_amended.2.1 ['(', ']'] [')', '['] (by rfl),
    C3_amended.2.2 ['(', '('] 2 0 0 (by rfl)⟩
  have hab : BalancedStr ['a', 'b'] :=
    BalancedStr.append (s := ['a']) (t := ['b'])
      (BalancedStr.char (by decide) (by decide) (by decide) (by decide)
        (by decide) (by decide) (by decide) (by decide))
      (BalancedStr.char (by decide) (by decide) (by decide) (by decide)
        (by decide) (by decide) (by decide) (by decide))
  exact C3_amended.1 ['(', 'a', 'b', ')'] (BalancedStr.parens hab)

theorem final_exit_of_obs {s₁ s₂ : DriverState} (h : obs s₁ = obs s₂) :
    final_exit s₁ = final_exit s₂ := by
  unfold final_exit
  simp only [obs, Prod.mk.injEq] at h
  rw [h.1, h.2.1]

theorem in_context_mk (st : validator_state) (ic : Bool) (ds : List (Nat × Diag)) :
    (DriverState.mk st ic ds).in_context = ic := rfl

/-- `processLine` never reads the stored `current_context`: states that
agree on everything else produce the same observable next state. -/
theorem obs_processLine_congr {s₁ s₂ : DriverState} (l : List Char)
    (h : obs s₁ = obs s₂) : obs (processLine s₁ l) = obs (processLine s₂ l) := by
  obtain ⟨⟨e₁, w₁, n₁, c₁⟩, ic₁, ds₁⟩ := s₁
  obtain ⟨⟨e₂, w₂, n₂, c₂⟩, ic₂, ds₂⟩ := s₂
  simp only [obs, Prod.mk.injEq] at h
  obtain ⟨he, hw, hn, hic, hds⟩ := h
  subst he; subst hw; subst hn; subst hic; subst hds
  simp only [processLine, bumpLine_in_context, in_context_mk]
  split
  · rfl
  · split
    · cases hn : (parse_context (trim l)).2 <;> simp [obs, emit, bumpLine]
    · split
      · rfl
      · split
        · simp [obs, emit, bumpLine]
        · split
          · simp [obs, emit, bumpLine]
          · split
            · split
              · simp [obs, emit, bumpLine]
              · rfl
            · split
              · simp [obs, emit, bumpLine]
              · rfl

/-- Processing a well-formed context header emits no diagnostics and
only increments the line number and sets the in-context flag. -/
theorem obs_processLine_goodHeader {l : List Char} (h : goodHeader l = true)
    (s : DriverState) :
    obs (processLine s l)
      = (s.st.errors, s.st.warnings, s.st.line_num + 1, true, s.diags) := by
  unfold goodHeader at h
  rw [Bool.and_eq_true] at h
  obtain ⟨hh, hpc⟩ := h
  rw [beq_iff_eq] at hh hpc
  simp only [processLine]
  rw [if_neg (by rw [not_comment_of_trim_bracket hh]; exact Bool.false_ne_true),
    if_pos hh]
  cases hn : (parse_context (trim l)).2 <;>
    simp [obs, emit, bumpLine, hpc, hn, countErrors, countWarnings]

/-- Claim C10: the stored context name never influences any diagnostic,
count, or the final outcome: two inputs whose lines are identical
except inside well-formed context-header lines validate to the same
observable state and the same exit classification. -/
theorem C10_context_name_noninterference :
    ∀ (l₁ l₂ : List (List Char)), List.Forall₂ lineEquiv l₁ l₂ →
      obs (validate_dialplan l₁) = obs (validate_dialplan l₂) ∧
      final_exit (validate_dialplan l₁) = final_exit (validate_dialplan l₂) := by
  have main : ∀ (l₁ l₂ : List (List Char)), List.Forall₂ lineEquiv l₁ l₂ →
      ∀ (s₁ s₂ : DriverState), obs s₁ = obs s₂ →
      obs (l₁.foldl processLine s₁) = obs (l₂.foldl processLine s₂) := by
    intro l₁ l₂ hf
    induction hf with
    | nil => intro s₁ s₂ h; exact h
    | cons ha _ ih =>
      intro s₁ s₂ h
      rw [List.foldl_cons, List.foldl_cons]
      rcases ha with rfl | ⟨hga, hgb⟩
      · exact ih _ _ (obs_processLine_congr _ h)
      · refine ih _ _ ?_
        rw [obs_processLine_goodHeader hga, obs_processLine_goodHeader hgb]
        simp only [obs, Prod.mk.injEq] at h
        rw [h.1, h.2.1, h.2.2.1, h.2.2.2.2]
  intro l₁ l₂ hf
  have hobs := main l₁ l₂ hf initState initState rfl
  exact ⟨hobs, final_exit_of_obs hobs⟩

/-- Witness for claim C10: two concrete inputs differing only in the context
name of their header line validate identically. -/
theorem C10_witness :
    obs (validate_dialplan ["[alpha]".toList, "exten => s,1,NoOp()".toList])
        = obs (validate_dialplan ["[b]".toList, "exten => s,1,NoOp()".toList]) ∧
    final_exit (validate_dialplan ["[alpha]".toList, "exten => s,1,NoOp()".toList])
        = final_exit (validate_dialplan ["[b]".toList, "exten => s,1,NoOp()".toList]) :=
  C10_context_name_noninterference _ _
    (List.Forall₂.cons (Or.inr ⟨by decide, by decide⟩)
      (List.Forall₂.cons (Or.inl rfl) List.Forall₂.nil))

/-- Claim C6: for every input, the final outcome is failure (exit 1) exactly
when the final `error_count` is positive; the warning count never
affects the outcome. -/
theorem C6_exit_classification (lines : List (List Char)) :
    final_exit (validate_dialplan lines)
        = (if (validate_dialplan lines).st.errors > 0 then 1 else 0) ∧
    (final_exit (validate_dialplan lines) ≠ 0
        ↔ (validate_dialplan lines).st.errors > 0) := by
  have h : ∀ s : DriverState,
      final_exit s = if s.st.errors > 0 then 1 else 0 := by
    intro s
    unfold final_exit
    by_cases he : s.st.errors = 0 <;> by_cases hw : s.st.warnings = 0 <;>
      simp [he, hw]
  refine ⟨h _, ?_⟩
  rw [h]
  by_cases he : (validate_dialplan lines).st.errors > 0 <;> simp [he]

end Dialplan
